import Mathlib

/-!
Verification development for the repo-ingestion service.

The Python sources (src/utils.py and src/main.py) are shallowly embedded
over `List Char`: Python strings become `List Char`, Python string methods
(`in`, `split`, `strip`, `splitlines`, ...) become the executable functions
below, Python exceptions become `Except`, and each call the `ingest`
endpoint makes to the GitHub repository client is recorded in a
`RemoteCall` trace.  The external json/yaml libraries are abstracted as
function parameters, and the external GitHub service is abstracted as a
`GithubState` record of its responses.
-/

set_option maxRecDepth 40000

namespace RepoIngestion

/-- Python strings are modelled as lists of characters. -/
abbrev Str := List Char

/-- Shorthand to turn a Lean string literal into the `Str` model. -/
def S (s : String) : Str := s.data

/-- Python `pat in s` (substring containment) on strings. -/
def occurs (pat : Str) : Str → Bool
  | [] => pat.isEmpty
  | c :: t => pat.isPrefixOf (c :: t) || occurs pat t

/-- Locate the first occurrence of `pat` in `s`: returns the text before it
and the text after it, or `none` when `pat` does not occur. -/
def splitFirst (pat : Str) : Str → Option (Str × Str)
  | [] => if pat.isEmpty then some ([], []) else none
  | c :: t =>
    if pat.isPrefixOf (c :: t) then some ([], (c :: t).drop pat.length)
    else (splitFirst pat t).map (fun p => (c :: p.1, p.2))

/-- Python `s.split(sep)[0]`: the text before the first occurrence of `sep`,
or all of `s` when `sep` does not occur. -/
def split0 (sep s : Str) : Str :=
  match splitFirst sep s with
  | none => s
  | some p => p.1

/-- Python `s.split(sep)[1]`: the text strictly between the first and second
occurrences of `sep` (everything after the first occurrence when there is no
second one).  In Python a missing element raises IndexError; the sources
only evaluate it after checking `sep in s`, so the `none` branch below is
unreachable in every use. -/
def split1 (sep s : Str) : Str :=
  match splitFirst sep s with
  | none => []
  | some p =>
    match splitFirst sep p.2 with
    | none => p.2
    | some q => q.1

/-- ASCII whitespace characters recognised by Python `str.strip`. -/
def pyIsWs (c : Char) : Bool :=
  c = ' ' || c = '\t' || c = '\n' || c = '\r' || c = '\x0b' || c = '\x0c'

/-- Python `s.lstrip()`. -/
def pyLstrip (s : Str) : Str := s.dropWhile pyIsWs

/-- Python `s.rstrip()`. -/
def pyRstrip (s : Str) : Str := (s.reverse.dropWhile pyIsWs).reverse

/-- Python `s.strip()`. -/
def pyStrip (s : Str) : Str := pyLstrip (pyRstrip s)

/-- Line-boundary characters recognised by Python `str.splitlines`. -/
def isLineBreak (c : Char) : Bool :=
  c = '\n' || c = '\r' || c = '\x0b' || c = '\x0c' || c = '\x1c' || c = '\x1d' ||
  c = '\x1e' || c = '\x85' || c = '\u2028' || c = '\u2029'

/-- Worker for `splitlines`: accumulates the current line in reverse. -/
def splitlinesGo : Str → Str → List Str
  | [], acc => [acc.reverse]
  | '\r' :: '\n' :: t, acc =>
    acc.reverse :: (if t.isEmpty then [] else splitlinesGo t [])
  | c :: t, acc =>
    if isLineBreak c then acc.reverse :: (if t.isEmpty then [] else splitlinesGo t [])
    else splitlinesGo t (c :: acc)

/-- Python `s.splitlines()`: split at line boundaries, treating `\r\n` as a
single boundary, with no trailing empty line for a trailing terminator. -/
def splitlines (s : Str) : List Str :=
  if s.isEmpty then [] else splitlinesGo s []

/-- utils.compare_line_by_line: compare two strings line by line. -/
def compare_line_by_line (str1 str2 : Str) : Bool :=
  splitlines str1 == splitlines str2

/-- The start sentinel marker of utils (copied verbatim). -/
def pr_body_prefix : Str :=
  S "<!-- This section is manged by repo-ingestion-bot. Please Do not edit manually! -->"

/-- The end sentinel marker of utils (copied verbatim). -/
def pr_body_postfix : Str :=
  S "<!-- End of section managed by repo-ingestion-bot -->"

/-- utils.wrap_pr_body: wrap the managed body with the two markers and
blank-line padding. -/
def wrap_pr_body (body : Str) : Str :=
  S "\n\n" ++ pr_body_prefix ++ S "\n" ++ body ++ S "\n" ++ pr_body_postfix ++ S "\n\n"

/-- utils.extract_pr_body: the text between the first occurrence of the start
marker and the first following occurrence of the end marker; empty when the
body is empty or misses a marker. -/
def extract_pr_body (body : Str) : Str :=
  if body.isEmpty || !occurs pr_body_prefix body || !occurs pr_body_postfix body then []
  else split0 pr_body_postfix (split1 pr_body_prefix body)

/-- utils.update_pr_body: replace (or append) the managed section. -/
def update_pr_body (body new_body : Str) : Str :=
  if body.isEmpty then wrap_pr_body new_body
  else if !occurs pr_body_prefix body || !occurs pr_body_postfix body then
    body ++ wrap_pr_body new_body
  else
    pyRstrip (split0 pr_body_prefix body) ++ wrap_pr_body new_body ++
      pyLstrip (split1 pr_body_postfix body)

/-- Regular expressions, modelling the pattern language used in the
ALLOWED_INGEST_PAYLOADS configuration. -/
inductive Regex where
  | emp : Regex
  | eps : Regex
  | chr : Char → Regex
  | alt : Regex → Regex → Regex
  | cat : Regex → Regex → Regex
  | star : Regex → Regex

/-- Whether a regex accepts the empty string. -/
def nullable : Regex → Bool
  | .emp => false
  | .eps => true
  | .chr _ => false
  | .alt r1 r2 => nullable r1 || nullable r2
  | .cat r1 r2 => nullable r1 && nullable r2
  | .star _ => true

/-- Brzozowski derivative of a regex by a character. -/
def deriv : Regex → Char → Regex
  | .emp, _ => .emp
  | .eps, _ => .emp
  | .chr c, a => if a = c then .eps else .emp
  | .alt r1 r2, a => .alt (deriv r1 a) (deriv r2 a)
  | .cat r1 r2, a =>
    if nullable r1 then .alt (.cat (deriv r1 a) r2) (deriv r2 a)
    else .cat (deriv r1 a) r2
  | .star r, a => .cat (deriv r a) (.star r)

/-- Whether `r` matches the whole string `s`. -/
def rmatch (r : Regex) (s : Str) : Bool := nullable (s.foldl deriv r)

/-- Truthiness of Python `re.match(r, s)`: the pattern is anchored at the
start of `s` only, so it succeeds as soon as some prefix of `s` matches. -/
def reMatchB (r : Regex) (s : Str) : Bool :=
  (List.range (s.length + 1)).any (fun k => rmatch r (s.take k))

/-- utils.Transform: a transform spec; the `type` field carries the value of
the TransformType string enum. -/
structure Transform where
  type : Str

/-- utils.File: one file change in an ingest payload. -/
structure File where
  path : Str
  content : Str
  transforms : List Transform

/-- utils.IngestPayload. -/
structure IngestPayload where
  repo : Str
  branch_suffix : Str
  files : List File

/-- One entry of the ALLOWED_INGEST_PAYLOADS configuration: the four regex
patterns of an allow rule. -/
structure AllowRule where
  repo : Regex
  branch_suffix : Regex
  file_path : Regex
  file_content : Regex

/-- Errors raised by the embedded code: HTTPException(status, detail),
GithubException(status), and AssertionError(message). -/
inductive PyErr where
  | http : Nat → Str → PyErr
  | github : Nat → PyErr
  | assertionError : Str → PyErr

/-- The repo and branch-suffix patterns of a rule both match the payload
(the outer condition of the loop in utils.validate_ingest_payload). -/
def ruleHeaderMatches (r : AllowRule) (p : IngestPayload) : Bool :=
  reMatchB r.repo p.repo && reMatchB r.branch_suffix p.branch_suffix

/-- A file fails the path or content pattern of a rule (the inner condition
of the loop in utils.validate_ingest_payload). -/
def fileViolates (r : AllowRule) (f : File) : Bool :=
  !(reMatchB r.file_path f.path && reMatchB r.file_content f.content)

/-- utils.validate_ingest_payload: iterate the allow rules in order; on the
first rule whose repo and branch-suffix patterns match, raise for the first
file violating its path/content patterns, else return True; raise a generic
error when no rule header matches. -/
def validate_ingest_payload : List AllowRule → IngestPayload → Except PyErr Bool
  | [], _ => .error (.http 400 (S "Payload does not match allowed regex"))
  | r :: rest, p =>
    if ruleHeaderMatches r p then
      match p.files.find? (fun f => fileViolates r f) with
      | some f => .error (.http 400 (S "File " ++ f.path ++ S " does not match allowed regex"))
      | none => .ok true
    else validate_ingest_payload rest p

/-- TransformType.json2yaml. -/
def transformTypeJson2yaml : Str := S "json2yaml"

/-- TransformType.yaml2json. -/
def transformTypeYaml2json : Str := S "yaml2json"

/-- The loop of utils.transform_file: thread the content through the listed
transforms.  `j2y` and `y2j` abstract utils.json2yaml and utils.yaml2json,
whose bodies are calls into the external json and yaml libraries; a parse
failure is an error result. -/
def applyTransforms (j2y y2j : Str → Except PyErr Str) : Str → List Transform → Except PyErr Str
  | content, [] => .ok content
  | content, t :: ts =>
    if t.type == transformTypeJson2yaml then
      match j2y content with
      | .error e => .error e
      | .ok c => applyTransforms j2y y2j c ts
    else if t.type == transformTypeYaml2json then
      match y2j content with
      | .error e => .error e
      | .ok c => applyTransforms j2y y2j c ts
    else .error (.http 500 (S "Unknown transform type " ++ t.type))

/-- utils.transform_file: run the transform chain on a local variable and
assign it to `file.content` only at the end; an exception propagates before
the assignment, leaving the file as it was.  The returned pair is the
raised-or-returned outcome together with the (possibly mutated) file. -/
def transform_file (j2y y2j : Str → Except PyErr Str) (f : File) : Except PyErr Unit × File :=
  match applyTransforms j2y y2j f.content f.transforms with
  | .ok c => (.ok (), File.mk f.path c f.transforms)
  | .error e => (.error e, f)

/-- The transform loop of main.ingest: transform each file in order,
propagating the first raised error. -/
def transformFiles (j2y y2j : Str → Except PyErr Str) : List File → Except PyErr (List File)
  | [] => .ok []
  | f :: fs =>
    match transform_file j2y y2j f with
    | (.error e, _) => .error e
    | (.ok _, f2) =>
      match transformFiles j2y y2j fs with
      | .error e => .error e
      | .ok fs2 => .ok (f2 :: fs2)

/-- The working-branch name constant of utils. -/
def branch_prefix : Str := S "repo-ingestion-"

/-- The working-branch name: the fixed branch name constant plus the payload suffix. -/
def working_branch (p : IngestPayload) : Str := branch_prefix ++ p.branch_suffix

/-- A pull request as returned by the GitHub client. -/
structure PullRequest where
  number : Nat
  title : Str
  body : Str
  html_url : Str

/-- Response of `repo.get_contents(path, ref=branch)`: either the existing
blob (content and sha) or a GithubException with an HTTP status (404 means
the file does not exist). -/
inductive ContentsResult where
  | found : Str → Str → ContentsResult
  | ghError : Nat → ContentsResult

/-- The responses of the external GitHub service for one ingest run. -/
structure GithubState where
  default_branch_name : Str
  default_branch_sha : Str
  org_login : Str
  /-- `none`: the ref was created; `some s`: create_git_ref raised
  GithubException with status `s` (422 is "Reference already exists"). -/
  create_ref_status : Option Nat
  contents : Str → ContentsResult
  pulls : List PullRequest
  created_pr_url : Str

/-- One call made to the GitHub repository client. -/
inductive RemoteCall where
  | getRepo : Str → RemoteCall
  | getBranch : Str → RemoteCall
  | createRef : Str → Str → RemoteCall
  | getContents : Str → Str → RemoteCall
  | updateFile : (path msg content sha branch : Str) → RemoteCall
  | createFile : (path msg content branch : Str) → RemoteCall
  | getPulls : Str → Str → RemoteCall
  | createPull : (title body head base : Str) → RemoteCall
  | editPull : Nat → Str → Str → RemoteCall

/-- The commit message used by main.ingest for file writes. -/
def fileCommitMsg (path : Str) : Str := S "Create or update " ++ path

/-- The file list rendered into the PR body by main.ingest. -/
def fileListStr (files : List File) : Str :=
  (files.map (fun f => S "* " ++ f.path ++ S "\n")).flatten

/-- Result of the `dedent(...)` template literal in main.ingest. -/
def pr_body_template : Str :=
  S "\n### Introduction\n\nThis PR is automatically generated by the [repo-ingestion](https://github.com/WATonomous/repo-ingestion) service.\n\n<!-- tags: repo-ingestion -->\n\n### Files in the latest submission:\n\n"

/-- The desired PR body computed by main.ingest (before marker wrapping). -/
def desired_pr_body (files : List File) : Str :=
  pr_body_template ++ fileListStr files

/-- The PR head `org:branch` computed by main.ingest. -/
def pr_head_of (st : GithubState) (p : IngestPayload) : Str :=
  st.org_login ++ S ":" ++ working_branch p

/-- The desired PR title computed by main.ingest. -/
def desired_pr_title (head : Str) : Str := S "Create or update files: " ++ head

/-- The file loop of main.ingest: for each file fetch the existing blob on
the working branch; a non-404 error is fatal; otherwise update (when found)
or create (when 404) the file.  The update is issued unconditionally, with
no comparison of the existing content against the new content. -/
def filesPhase (st : GithubState) (branch : Str) : List File → Except PyErr Unit × List RemoteCall
  | [] => (.ok (), [])
  | f :: fs =>
    match st.contents f.path with
    | .ghError s =>
      if s = 404 then
        let rest := filesPhase st branch fs
        (rest.1, .getContents f.path branch ::
          .createFile f.path (fileCommitMsg f.path) f.content branch :: rest.2)
      else (.error (.github s), [.getContents f.path branch])
    | .found _ sha =>
      let rest := filesPhase st branch fs
      (rest.1, .getContents f.path branch ::
        .updateFile f.path (fileCommitMsg f.path) f.content sha branch :: rest.2)

/-- The PR block of main.ingest: list open PRs for (head, base); an empty
list raises IndexError at `prs[0]`, caught to create the PR; two or more
results make assert_throws raise AssertionError (fatal); with exactly one
PR, edit it unless the title matches and the stripped managed section is
line-by-line equal to the stripped desired body. -/
def prPhase (st : GithubState) (p : IngestPayload) : Except PyErr Str × List RemoteCall :=
  let head := pr_head_of st p
  let title := desired_pr_title head
  let body := desired_pr_body p.files
  let listCall := RemoteCall.getPulls head st.default_branch_name
  match st.pulls with
  | [] =>
    (.ok st.created_pr_url,
      [listCall, .createPull title (update_pr_body [] body) head st.default_branch_name])
  | pr :: rest =>
    if rest.isEmpty then
      if pr.title == title &&
          compare_line_by_line (pyStrip (extract_pr_body pr.body)) (pyStrip body) then
        (.ok pr.html_url, [listCall])
      else
        (.ok pr.html_url, [listCall, .editPull pr.number title (update_pr_body pr.body body)])
    else
      (.error (.assertionError (S "Expected only one PR from " ++ head ++ S " to " ++
        st.default_branch_name ++ S ", but found more than one")), [listCall])

/-- Files then PR: the part of main.ingest after the branch was ensured. -/
def postBranchPhase (st : GithubState) (p : IngestPayload) : Except PyErr Str × List RemoteCall :=
  let fp := filesPhase st (working_branch p) p.files
  match fp.1 with
  | .error e => (.error e, fp.2)
  | .ok _ =>
    let pp := prPhase st p
    (pp.1, fp.2 ++ pp.2)

/-- The calls main.ingest makes before the file loop: resolve the repo,
read its default branch, and attempt to create the working branch ref. -/
def calls0Of (st : GithubState) (p : IngestPayload) : List RemoteCall :=
  [.getRepo p.repo, .getBranch st.default_branch_name,
   .createRef (S "refs/heads/" ++ working_branch p) st.default_branch_sha]

/-- The GitHub-facing part of main.ingest: resolve the repo and its default
branch, create the working branch (tolerating status 422, "Reference
already exists"), then reconcile files and the PR. -/
def githubPhase (st : GithubState) (p : IngestPayload) : Except PyErr Str × List RemoteCall :=
  match st.create_ref_status with
  | some s =>
    if s = 422 then
      let r := postBranchPhase st p
      (r.1, calls0Of st p ++ r.2)
    else (.error (.github s), calls0Of st p)
  | none =>
    let r := postBranchPhase st p
    (r.1, calls0Of st p ++ r.2)

/-- main.ingest: validate the payload against the allow rules, transform
every file, then talk to GitHub.  The first component is the outcome (the
PR html_url on success), the second the trace of repository-client calls. -/
def ingest (st : GithubState) (rules : List AllowRule) (j2y y2j : Str → Except PyErr Str)
    (p : IngestPayload) : Except PyErr Str × List RemoteCall :=
  match validate_ingest_payload rules p with
  | .error e => (.error e, [])
  | .ok _ =>
    match transformFiles j2y y2j p.files with
    | .error e => (.error e, [])
    | .ok files2 => githubPhase st (IngestPayload.mk p.repo p.branch_suffix files2)

/-- Recognise a PR-edit call. -/
def isEditPull : RemoteCall → Bool
  | .editPull _ _ _ => true
  | _ => false

/-- Recognise a PR-creation call. -/
def isCreatePull : RemoteCall → Bool
  | .createPull _ _ _ _ => true
  | _ => false

/-- Recognise a PR-listing call. -/
def isGetPulls : RemoteCall → Bool
  | .getPulls _ _ => true
  | _ => false

/-- Recognise a file-update (write) call. -/
def isUpdateFile : RemoteCall → Bool
  | .updateFile _ _ _ _ _ => true
  | _ => false

/-- Fetching the blob of `f` does not raise a fatal (non-404) error. -/
def contentsOk (st : GithubState) (f : File) : Prop :=
  match st.contents f.path with
  | .ghError s => s = 404
  | .found _ _ => True

/-- A body with external text on both sides of a well-formed managed
section, used to evaluate `update_pr_body` on a concrete input. -/
def b3cex : Str :=
  S "before " ++ pr_body_prefix ++ S "x" ++ pr_body_postfix ++ S " after"

/-- An allow rule whose four patterns are the empty regex, matching the
empty prefix of every string (Python `re.match("", s)` is truthy). -/
def ruleAll : AllowRule := AllowRule.mk .eps .eps .eps .eps

/-- A rule whose repo pattern cannot match the example payload. -/
def ruleRepoZ : AllowRule := AllowRule.mk (.chr 'z') .eps .eps .eps

/-- A rule whose header patterns match the example payload but whose file
content pattern does not. -/
def ruleContentZ : AllowRule := AllowRule.mk .eps .eps .eps (.chr 'z')

/-- Identity stand-in for the abstracted json/yaml converters. -/
def idOk : Str → Except PyErr Str := fun s => Except.ok s

/-- A concrete file change with no transforms. -/
def fileF : File := File.mk (S "f") (S "c") []

/-- A concrete file change whose transform list names an unknown type. -/
def fBogus : File := File.mk (S "f") (S "c") [Transform.mk (S "bogus")]

/-- A concrete ingest payload with one file. -/
def payF : IngestPayload := IngestPayload.mk (S "o/r") (S "s") [fileF]

/-- The PR body a previous identical run would have produced. -/
def prBodyF : Str := update_pr_body [] (desired_pr_body [fileF])

/-- The existing open PR of a previous identical run. -/
def prF : PullRequest :=
  PullRequest.mk 1 (desired_pr_title (S "o:repo-ingestion-s")) prBodyF (S "http://pr/1")

/-- A second open PR for the same head/base pair (duplicate state). -/
def prF2 : PullRequest :=
  PullRequest.mk 2 (desired_pr_title (S "o:repo-ingestion-s")) prBodyF (S "http://pr/2")

/-- GitHub responses for a replay of `payF`: the branch already exists, the
file exists with content byte-identical to the transformed content, and
exactly one open PR (the one of the previous run) exists. -/
def stRun : GithubState :=
  GithubState.mk (S "main") (S "sha0") (S "o") (some 422)
    (fun _ => ContentsResult.found (S "c") (S "blob1")) [prF] (S "http://pr/new")

/-- GitHub responses in which two open PRs exist for the head/base pair. -/
def stDup : GithubState :=
  GithubState.mk (S "main") (S "sha0") (S "o") (some 422)
    (fun _ => ContentsResult.found (S "c") (S "blob1")) [prF, prF2] (S "http://pr/new")

theorem isPrefixOf_append_self (l w : Str) : l.isPrefixOf (l ++ w) = true := by
  induction l with
  | nil => simp [List.isPrefixOf]
  | cons a as ih => simp [List.isPrefixOf, ih]

theorem drop_length_append (l w : Str) : (l ++ w).drop l.length = w := by
  induction l with
  | nil => rfl
  | cons a as ih => simpa using ih

theorem isPrefixOf_append_cons {pat : Str} {c : Char} (hc : c ∉ pat) :
    ∀ a b : Str, pat.isPrefixOf (a ++ c :: b) = pat.isPrefixOf a := by
  induction pat with
  | nil => intro a b; simp [List.isPrefixOf]
  | cons p ps ih =>
    intro a b
    cases a with
    | nil =>
      have hpc : (p == c) = false := by
        simp only [beq_eq_false_iff_ne]
        intro h
        exact hc (h ▸ List.mem_cons_self p ps)
      simp [List.isPrefixOf, hpc]
    | cons x a2 =>
      have hcps : c ∉ ps := fun h => hc (List.mem_cons_of_mem _ h)
      simp [List.isPrefixOf, ih hcps]

theorem occurs_ne_nil_isEmpty {pat : Str} (hne : pat ≠ []) : pat.isEmpty = false := by
  cases pat with
  | nil => exact absurd rfl hne
  | cons p ps => rfl

theorem occurs_cons_not_mem {pat b : Str} {c : Char} (hne : pat ≠ []) (hc : c ∉ pat) :
    occurs pat (c :: b) = occurs pat b := by
  cases pat with
  | nil => exact absurd rfl hne
  | cons p ps =>
    have hpc : (p == c) = false := by
      simp only [beq_eq_false_iff_ne]
      intro h
      exact hc (h ▸ List.mem_cons_self p ps)
    simp [occurs, List.isPrefixOf, hpc]

theorem occurs_append_cons {pat : Str} {c : Char} (hne : pat ≠ []) (hc : c ∉ pat) :
    ∀ a b : Str, occurs pat (a ++ c :: b) = (occurs pat a || occurs pat b) := by
  intro a b
  induction a with
  | nil =>
    rw [List.nil_append, occurs_cons_not_mem hne hc]
    simp [occurs, occurs_ne_nil_isEmpty hne]
  | cons x a2 ih =>
    have h1 : pat.isPrefixOf (x :: (a2 ++ c :: b)) = pat.isPrefixOf (x :: a2) := by
      have := isPrefixOf_append_cons hc (x :: a2) b
      simpa using this
    calc occurs pat ((x :: a2) ++ c :: b)
        = (pat.isPrefixOf (x :: (a2 ++ c :: b)) || occurs pat (a2 ++ c :: b)) := rfl
      _ = (pat.isPrefixOf (x :: a2) || (occurs pat a2 || occurs pat b)) := by rw [h1, ih]
      _ = (occurs pat (x :: a2) || occurs pat b) := by
          simp [occurs, Bool.or_assoc]

theorem splitFirst_cons_not_mem {pat b : Str} {c : Char} (hne : pat ≠ []) (hc : c ∉ pat) :
    splitFirst pat (c :: b) = (splitFirst pat b).map (fun p => (c :: p.1, p.2)) := by
  cases pat with
  | nil => exact absurd rfl hne
  | cons p ps =>
    have hpc : (p == c) = false := by
      simp only [beq_eq_false_iff_ne]
      intro h
      exact hc (h ▸ List.mem_cons_self p ps)
    simp [splitFirst, List.isPrefixOf, hpc]

theorem splitFirst_append_cons {pat : Str} {c : Char} (hne : pat ≠ []) (hc : c ∉ pat) :
    ∀ a b : Str, occurs pat a = false →
      splitFirst pat (a ++ c :: b) = (splitFirst pat b).map (fun p => (a ++ c :: p.1, p.2)) := by
  intro a b
  induction a with
  | nil =>
    intro _
    rw [List.nil_append, splitFirst_cons_not_mem hne hc]
    rfl
  | cons x a2 ih =>
    intro ha
    have ha1 : pat.isPrefixOf (x :: a2) = false := by
      have : (pat.isPrefixOf (x :: a2) || occurs pat a2) = false := ha
      exact (Bool.or_eq_false_iff.mp this).1
    have ha2 : occurs pat a2 = false := by
      have : (pat.isPrefixOf (x :: a2) || occurs pat a2) = false := ha
      exact (Bool.or_eq_false_iff.mp this).2
    have h1 : pat.isPrefixOf (x :: (a2 ++ c :: b)) = false := by
      have := isPrefixOf_append_cons hc (x :: a2) b
      simp only [List.cons_append] at this
      rw [this, ha1]
    show splitFirst pat (x :: (a2 ++ c :: b)) = _
    rw [show splitFirst pat (x :: (a2 ++ c :: b)) =
        (splitFirst pat (a2 ++ c :: b)).map (fun p => (x :: p.1, p.2)) by
      cases pat with
      | nil => exact absurd rfl hne
      | cons p ps => simp [splitFirst, h1]]
    rw [ih ha2, Option.map_map]
    rfl

theorem occurs_eq_isSome (pat : Str) : ∀ s : Str, occurs pat s = (splitFirst pat s).isSome := by
  intro s
  induction s with
  | nil =>
    cases h : pat.isEmpty <;> simp [occurs, splitFirst, h]
  | cons c t ih =>
    cases h : pat.isPrefixOf (c :: t) <;> simp [occurs, splitFirst, h, ih]

theorem splitFirst_eq_none {pat s : Str} (h : occurs pat s = false) : splitFirst pat s = none := by
  cases hs : splitFirst pat s with
  | none => rfl
  | some p =>
    rw [occurs_eq_isSome pat s, hs] at h
    simp at h

theorem splitFirst_self {pat w : Str} (hne : pat ≠ []) : splitFirst pat (pat ++ w) = some ([], w) := by
  cases pat with
  | nil => exact absurd rfl hne
  | cons p ps =>
    have hpre : (p :: ps).isPrefixOf (p :: (ps ++ w)) = true := by
      have := isPrefixOf_append_self (p :: ps) w
      simpa using this
    have hdrop : (p :: (ps ++ w)).drop (p :: ps).length = w := by
      have := drop_length_append (p :: ps) w
      simpa using this
    show splitFirst (p :: ps) (p :: (ps ++ w)) = some ([], w)
    simp [splitFirst, hpre, hdrop]

theorem occurs_self {pat w : Str} (hne : pat ≠ []) : occurs pat (pat ++ w) = true := by
  rw [occurs_eq_isSome, splitFirst_self hne]
  rfl

theorem P_ne_nil : pr_body_prefix ≠ [] := by decide

theorem Q_ne_nil : pr_body_postfix ≠ [] := by decide

theorem nl_not_mem_P : '\n' ∉ pr_body_prefix := by decide

theorem nl_not_mem_Q : '\n' ∉ pr_body_postfix := by decide

theorem occurs_Q_in_P : occurs pr_body_postfix pr_body_prefix = false := by decide

theorem occurs_P_in_Qnn : occurs pr_body_prefix ( pr_body_postfix ++ ['\n', '\n']) = false := by
  decide

theorem occurs_Q_in_nn : occurs pr_body_postfix (['\n', '\n'] : Str) = false := by decide

theorem wrap_eq (M : Str) :
    wrap_pr_body M =
      '\n' :: '\n' :: ( pr_body_prefix ++ '\n' :: (M ++ '\n' :: ( pr_body_postfix ++ ['\n', '\n']))) := by
  simp only [wrap_pr_body, List.append_assoc]
  rfl

theorem update_marker_free {B M : Str} (hB : occurs pr_body_prefix B = false) :
    update_pr_body B M = B ++ wrap_pr_body M := by
  cases B with
  | nil => simp [update_pr_body]
  | cons c t => simp [update_pr_body, List.isEmpty, hB]

theorem splitFirst_wrap_start {B M : Str} (hB : occurs pr_body_prefix B = false) :
    splitFirst pr_body_prefix (B ++ wrap_pr_body M) =
      some (B ++ ['\n', '\n'], '\n' :: (M ++ '\n' :: ( pr_body_postfix ++ ['\n', '\n']))) := by
  rw [wrap_eq]
  rw [splitFirst_append_cons P_ne_nil nl_not_mem_P B _ hB]
  rw [splitFirst_cons_not_mem P_ne_nil nl_not_mem_P]
  rw [splitFirst_self P_ne_nil]
  rfl

theorem splitFirst_wrap_end {B M : Str} (hB : occurs pr_body_postfix B = false)
    (hM : occurs pr_body_postfix M = false) :
    splitFirst pr_body_postfix (B ++ wrap_pr_body M) =
      some (B ++ '\n' :: '\n' :: ( pr_body_prefix ++ '\n' :: (M ++ ['\n'])), ['\n', '\n']) := by
  rw [wrap_eq]
  rw [splitFirst_append_cons Q_ne_nil nl_not_mem_Q B _ hB]
  rw [splitFirst_cons_not_mem Q_ne_nil nl_not_mem_Q]
  rw [splitFirst_append_cons Q_ne_nil nl_not_mem_Q pr_body_prefix _ occurs_Q_in_P]
  rw [splitFirst_append_cons Q_ne_nil nl_not_mem_Q M _ hM]
  rw [splitFirst_self Q_ne_nil]
  rfl

theorem occurs_start_wrap (B M : Str) : occurs pr_body_prefix (B ++ wrap_pr_body M) = true := by
  rw [wrap_eq]
  rw [occurs_append_cons P_ne_nil nl_not_mem_P B]
  rw [occurs_cons_not_mem P_ne_nil nl_not_mem_P]
  rw [occurs_self P_ne_nil]
  simp

theorem occurs_end_wrap (B M : Str) : occurs pr_body_postfix (B ++ wrap_pr_body M) = true := by
  rw [wrap_eq]
  rw [occurs_append_cons Q_ne_nil nl_not_mem_Q B]
  rw [occurs_cons_not_mem Q_ne_nil nl_not_mem_Q]
  rw [occurs_append_cons Q_ne_nil nl_not_mem_Q pr_body_prefix]
  rw [occurs_append_cons Q_ne_nil nl_not_mem_Q M]
  rw [occurs_self Q_ne_nil]
  simp

theorem isEmpty_append_wrap (B M : Str) : (B ++ wrap_pr_body M).isEmpty = false := by
  rw [wrap_eq]
  cases B <;> rfl

theorem extract_append_wrap {B M : Str}
    (hPB : occurs pr_body_prefix B = false) (hPM : occurs pr_body_prefix M = false)
    (hQM : occurs pr_body_postfix M = false) :
    extract_pr_body (B ++ wrap_pr_body M) = '\n' :: (M ++ ['\n']) := by
  have htail : occurs pr_body_prefix
      ('\n' :: (M ++ '\n' :: ( pr_body_postfix ++ ['\n', '\n']))) = false := by
    rw [occurs_cons_not_mem P_ne_nil nl_not_mem_P]
    rw [occurs_append_cons P_ne_nil nl_not_mem_P M]
    rw [hPM, occurs_P_in_Qnn]
    rfl
  have hsplit1 : split1 pr_body_prefix (B ++ wrap_pr_body M) =
      '\n' :: (M ++ '\n' :: ( pr_body_postfix ++ ['\n', '\n'])) := by
    unfold split1
    rw [splitFirst_wrap_start hPB]
    dsimp only
    rw [splitFirst_eq_none htail]
  have hsplit0 : split0 pr_body_postfix
      ('\n' :: (M ++ '\n' :: ( pr_body_postfix ++ ['\n', '\n']))) = '\n' :: (M ++ ['\n']) := by
    unfold split0
    rw [splitFirst_cons_not_mem Q_ne_nil nl_not_mem_Q]
    rw [splitFirst_append_cons Q_ne_nil nl_not_mem_Q M _ hQM]
    rw [splitFirst_self Q_ne_nil]
    rfl
  unfold extract_pr_body
  rw [isEmpty_append_wrap, occurs_start_wrap, occurs_end_wrap]
  simpa [hsplit1] using hsplit0

theorem dropWhile_ws_cons_nl (y : Str) :
    List.dropWhile pyIsWs ('\n' :: y) = List.dropWhile pyIsWs y := by
  have h : pyIsWs '\n' = true := rfl
  rw [List.dropWhile_cons, h]
  simp

theorem pyRstrip_append_nn (x : Str) : pyRstrip (x ++ ['\n', '\n']) = pyRstrip x := by
  unfold pyRstrip
  rw [List.reverse_append]
  have h2 : ((['\n', '\n'] : Str)).reverse = ['\n', '\n'] := rfl
  rw [h2]
  simp only [List.cons_append, List.nil_append]
  rw [dropWhile_ws_cons_nl, dropWhile_ws_cons_nl]

theorem pyRstrip_append_nl (x : Str) : pyRstrip (x ++ ['\n']) = pyRstrip x := by
  unfold pyRstrip
  rw [List.reverse_append]
  simp only [List.reverse_cons, List.reverse_nil, List.nil_append, List.cons_append]
  rw [dropWhile_ws_cons_nl]

theorem update_append_wrap {B M M2 : Str}
    (hPB : occurs pr_body_prefix B = false) (hQB : occurs pr_body_postfix B = false)
    (hQM : occurs pr_body_postfix M = false) :
    update_pr_body (B ++ wrap_pr_body M) M2 = pyRstrip (B ++ ['\n', '\n']) ++ wrap_pr_body M2 := by
  have hsplit0 : split0 pr_body_prefix (B ++ wrap_pr_body M) = B ++ ['\n', '\n'] := by
    unfold split0
    rw [splitFirst_wrap_start hPB]
  have hsplit1 : split1 pr_body_postfix (B ++ wrap_pr_body M) = ['\n', '\n'] := by
    unfold split1
    rw [splitFirst_wrap_end hQB hQM]
    dsimp only
    rw [splitFirst_eq_none occurs_Q_in_nn]
  have hl : pyLstrip (['\n', '\n'] : Str) = [] := rfl
  unfold update_pr_body
  rw [isEmpty_append_wrap, occurs_start_wrap, occurs_end_wrap]
  simp [hsplit0, hsplit1, hl]

/-- Claim C2, as stated, is false: for the marker-free body `""` and managed
text `"x"`, extracting the managed section from the merged body yields the
newline-padded text `"\nx\n"`, not `"x"`. -/
theorem extract_update_round_trip_cex :
    extract_pr_body (update_pr_body [] (S "x")) ≠ S "x" := by decide

/-- Claim C2 (amended): for every body text B containing neither sentinel
marker and every managed text M containing neither marker, extracting the
managed section from the merged body returns M surrounded by the one-newline
padding that `wrap_pr_body` inserts:
`extract_pr_body (update_pr_body B M) = "\n" ++ M ++ "\n"`. -/
theorem extract_update_padded_round_trip {B M : Str}
    (hPB : occurs pr_body_prefix B = false) (_hQB : occurs pr_body_postfix B = false)
    (hPM : occurs pr_body_prefix M = false) (hQM : occurs pr_body_postfix M = false) :
    extract_pr_body (update_pr_body B M) = '\n' :: (M ++ ['\n']) := by
  rw [update_marker_free hPB]
  exact extract_append_wrap hPB hPM hQM

/-- Witness: the amended C2 round-trip evaluated at B = "hello", M = "world". -/
theorem extract_update_padded_round_trip_witness :
    occurs pr_body_prefix (S "hello") = false ∧ occurs pr_body_postfix (S "hello") = false ∧
    occurs pr_body_prefix (S "world") = false ∧ occurs pr_body_postfix (S "world") = false ∧
    extract_pr_body (update_pr_body (S "hello") (S "world")) = '\n' :: (S "world" ++ ['\n']) :=
  ⟨by decide, by decide, by decide, by decide,
    extract_update_padded_round_trip (by decide) (by decide) (by decide) (by decide)⟩

/-- Claim C3, as stated, is false: for the body
`"before " ++ start ++ "x" ++ end ++ " after"` the external content is not
preserved byte-for-byte — neither `"before "` (its trailing space is
right-trimmed) nor `" after"` (its leading space is left-trimmed) occurs
anywhere in the updated body. -/
theorem update_external_byte_identical_cex :
    occurs (S "before ") (update_pr_body b3cex (S "y")) = false ∧
    occurs (S " after") (update_pr_body b3cex (S "y")) = false :=
  ⟨by decide, by decide⟩

/-- Claim C3 (amended): for a body with both markers in a well-formed layout
(each marker directly after a newline), `update_pr_body` keeps the external
content only up to whitespace trimming: the text before the first start
marker is kept right-trimmed and the text after the first end marker is kept
left-trimmed, with `wrap_pr_body` supplying fresh blank-line padding. -/
theorem update_preserves_external_up_to_trim (pre mid post M : Str)
    (hPpre : occurs pr_body_prefix pre = false)
    (hQpre : occurs pr_body_postfix pre = false)
    (hQmid : occurs pr_body_postfix mid = false)
    (hQpost : occurs pr_body_postfix post = false) :
    update_pr_body
        (pre ++ '\n' :: ( pr_body_prefix ++ '\n' :: (mid ++ '\n' :: ( pr_body_postfix ++ post)))) M =
      pyRstrip pre ++ wrap_pr_body M ++ pyLstrip post := by
  have hempty :
      (pre ++ '\n' :: ( pr_body_prefix ++ '\n' :: (mid ++ '\n' :: ( pr_body_postfix ++ post)))).isEmpty
        = false := by
    cases pre <;> rfl
  have hoccP : occurs pr_body_prefix
      (pre ++ '\n' :: ( pr_body_prefix ++ '\n' :: (mid ++ '\n' :: ( pr_body_postfix ++ post)))) = true := by
    rw [occurs_append_cons P_ne_nil nl_not_mem_P pre]
    rw [occurs_self P_ne_nil]
    simp
  have hoccQ : occurs pr_body_postfix
      (pre ++ '\n' :: ( pr_body_prefix ++ '\n' :: (mid ++ '\n' :: ( pr_body_postfix ++ post)))) = true := by
    rw [occurs_append_cons Q_ne_nil nl_not_mem_Q pre]
    rw [occurs_append_cons Q_ne_nil nl_not_mem_Q pr_body_prefix]
    rw [occurs_append_cons Q_ne_nil nl_not_mem_Q mid]
    rw [occurs_self Q_ne_nil]
    simp
  have hsplit0 : split0 pr_body_prefix
      (pre ++ '\n' :: ( pr_body_prefix ++ '\n' :: (mid ++ '\n' :: ( pr_body_postfix ++ post)))) =
        pre ++ ['\n'] := by
    unfold split0
    rw [splitFirst_append_cons P_ne_nil nl_not_mem_P pre _ hPpre]
    rw [splitFirst_self P_ne_nil]
    rfl
  have hsplit1 : split1 pr_body_postfix
      (pre ++ '\n' :: ( pr_body_prefix ++ '\n' :: (mid ++ '\n' :: ( pr_body_postfix ++ post)))) =
        post := by
    unfold split1
    rw [splitFirst_append_cons Q_ne_nil nl_not_mem_Q pre _ hQpre]
    rw [splitFirst_append_cons Q_ne_nil nl_not_mem_Q pr_body_prefix _ occurs_Q_in_P]
    rw [splitFirst_append_cons Q_ne_nil nl_not_mem_Q mid _ hQmid]
    rw [splitFirst_self Q_ne_nil]
    simp [splitFirst_eq_none hQpost]
  unfold update_pr_body
  rw [hempty, hoccP, hoccQ]
  simp only [Bool.not_true, Bool.or_self, Bool.false_or]
  rw [hsplit0, hsplit1, pyRstrip_append_nl]
  simp

/-- Witness: the amended C3 preservation evaluated at concrete external
texts, managed texts, and replacement. -/
theorem update_preserves_external_up_to_trim_witness :
    occurs pr_body_prefix (S "Intro") = false ∧ occurs pr_body_postfix (S "Intro") = false ∧
    occurs pr_body_postfix (S "old") = false ∧ occurs pr_body_postfix (S " tail") = false ∧
    update_pr_body
        (S "Intro" ++ '\n' :: ( pr_body_prefix ++ '\n' :: (S "old" ++ '\n' :: ( pr_body_postfix ++ S " tail"))))
        (S "new") =
      pyRstrip (S "Intro") ++ wrap_pr_body (S "new") ++ pyLstrip (S " tail") :=
  ⟨by decide, by decide, by decide, by decide,
    update_preserves_external_up_to_trim (S "Intro") (S "old") (S " tail") (S "new")
      (by decide) (by decide) (by decide) (by decide)⟩

/-- Claim C8, as stated, is false: for the marker-free body `"x "` (trailing
space) and managed content `"y"`, re-applying `update_pr_body` right-trims
the text before the marker it inserted, so the second output differs from
the first. -/
theorem update_pr_body_idempotent_cex :
    update_pr_body (update_pr_body (S "x ") (S "y")) (S "y") ≠
      update_pr_body (S "x ") (S "y") := by decide

/-- Claim C8 (amended): `update_pr_body` is idempotent for every managed
content M containing neither marker and every body B that contains neither
marker and has no trailing whitespace (in particular for the empty body);
a marker-free body with trailing whitespace loses that whitespace on the
second application, as the counterexample shows. -/
theorem update_pr_body_idempotent_clean {B M : Str}
    (hPB : occurs pr_body_prefix B = false) (hQB : occurs pr_body_postfix B = false)
    (_hPM : occurs pr_body_prefix M = false) (hQM : occurs pr_body_postfix M = false)
    (hR : pyRstrip B = B) :
    update_pr_body (update_pr_body B M) M = update_pr_body B M := by
  rw [update_marker_free hPB]
  rw [update_append_wrap hPB hQB hQM]
  rw [pyRstrip_append_nn, hR]

/-- Witness: the amended C8 idempotence evaluated at B = "ext", M = "y". -/
theorem update_pr_body_idempotent_clean_witness :
    occurs pr_body_prefix (S "ext") = false ∧ occurs pr_body_postfix (S "ext") = false ∧
    occurs pr_body_prefix (S "y") = false ∧ occurs pr_body_postfix (S "y") = false ∧
    pyRstrip (S "ext") = S "ext" ∧
    update_pr_body (update_pr_body (S "ext") (S "y")) (S "y") =
      update_pr_body (S "ext") (S "y") :=
  ⟨by decide, by decide, by decide, by decide, by decide,
    update_pr_body_idempotent_clean (by decide) (by decide) (by decide) (by decide) (by decide)⟩

/-- Claim C10: transform_file is atomic per file — when the transform chain
raises, the returned file equals the input file, its content untouched. -/
theorem transform_file_error_preserves_file (j2y y2j : Str → Except PyErr Str) (f : File)
    (e : PyErr) (h : (transform_file j2y y2j f).1 = Except.error e) :
    (transform_file j2y y2j f).2 = f := by
  unfold transform_file at h ⊢
  cases happ : applyTransforms j2y y2j f.content f.transforms with
  | ok c => rw [happ] at h; simp at h
  | error e2 => rfl

/-- Witness: a file whose transform list names an unknown type makes the
chain raise, and the file comes back unchanged. -/
theorem transform_file_error_preserves_file_witness :
    (transform_file idOk idOk fBogus).1 =
      Except.error (PyErr.http 500 (S "Unknown transform type " ++ S "bogus")) ∧
    (transform_file idOk idOk fBogus).2 = fBogus :=
  ⟨rfl, transform_file_error_preserves_file idOk idOk fBogus
    (PyErr.http 500 (S "Unknown transform type " ++ S "bogus")) rfl⟩

/-- Claim C4, as stated, is false: with a first rule whose header patterns
match but whose content pattern rejects the file, validation does not fall
through to the second rule even though that rule fully satisfies the
request on its own; it rejects at once, naming the file. -/
theorem validate_no_fallthrough_cex :
    validate_ingest_payload [ruleContentZ, ruleAll] payF =
      Except.error (PyErr.http 400 (S "File f does not match allowed regex")) ∧
    validate_ingest_payload [ruleAll] payF = Except.ok true :=
  ⟨rfl, rfl⟩

/-- Claim C4 (amended): rules whose repository or branch-suffix pattern does
not match are skipped; at the first rule whose repository and branch-suffix
patterns both match, a file failing the path or content pattern makes
validation fail immediately with an error naming the first offending file —
later rules are never consulted. -/
theorem validate_rejects_at_first_header_match (p : IngestPayload) (r : AllowRule)
    (f : File) :
    ∀ (pre rest : List AllowRule),
      (∀ r2 ∈ pre, ruleHeaderMatches r2 p = false) →
      ruleHeaderMatches r p = true →
      p.files.find? (fun g => fileViolates r g) = some f →
      validate_ingest_payload (pre ++ r :: rest) p =
        Except.error (PyErr.http 400 (S "File " ++ f.path ++ S " does not match allowed regex")) := by
  intro pre
  induction pre with
  | nil =>
    intro rest _ hr hf
    simp [validate_ingest_payload, hr, hf]
  | cons r2 pre2 ih =>
    intro rest hpre hr hf
    have h2 : ruleHeaderMatches r2 p = false := hpre r2 (List.mem_cons_self r2 pre2)
    have hrest := ih rest (fun r3 h3 => hpre r3 (List.mem_cons_of_mem r2 h3)) hr hf
    simp [validate_ingest_payload, h2, hrest]

/-- Witness: with a non-matching first rule, a header-matching second rule
whose content pattern rejects the file, and a fully permissive third rule,
validation rejects naming the file. -/
theorem validate_rejects_at_first_header_match_witness :
    (∀ r2 ∈ [ruleRepoZ], ruleHeaderMatches r2 payF = false) ∧
    ruleHeaderMatches ruleContentZ payF = true ∧
    payF.files.find? (fun g => fileViolates ruleContentZ g) = some fileF ∧
    validate_ingest_payload ([ruleRepoZ] ++ ruleContentZ :: [ruleAll]) payF =
      Except.error (PyErr.http 400 (S "File " ++ fileF.path ++ S " does not match allowed regex")) :=
  ⟨fun r2 h2 => by rw [List.mem_singleton] at h2; rw [h2]; decide,
   by decide, rfl,
   validate_rejects_at_first_header_match payF ruleContentZ fileF [ruleRepoZ] [ruleAll]
     (fun r2 h2 => by rw [List.mem_singleton] at h2; rw [h2]; decide) (by decide) rfl⟩

/-- Prefix matching suffices for `reMatchB`: if the regex fully matches some
prefix of the string, Python re.match is truthy on the string. -/
theorem reMatchB_of_take {r : Regex} {s : Str} (h : ∃ k, rmatch r (s.take k) = true) :
    reMatchB r s = true := by
  obtain ⟨k, hk⟩ := h
  unfold reMatchB
  rw [List.any_eq_true]
  by_cases hlen : k ≤ s.length
  · exact ⟨k, List.mem_range.mpr (Nat.lt_succ_of_le hlen), hk⟩
  · refine ⟨s.length, List.mem_range.mpr (Nat.lt_succ_self _), ?_⟩
    rw [List.take_length]
    rw [List.take_of_length_le (Nat.le_of_lt (Nat.lt_of_not_le hlen))] at hk
    exact hk

/-- Claim C9: authorization pattern matching is anchored only at the start
of each string, so a rule authorizes any request whose repository, branch
suffix, file path, and file content each merely begin with a match of the
corresponding pattern, even when the pattern does not match the entire
string. -/
theorem validate_accepts_on_prefix_matches (r : AllowRule) (p : IngestPayload)
    (h1 : ∃ k, rmatch r.repo (p.repo.take k) = true)
    (h2 : ∃ k, rmatch r.branch_suffix (p.branch_suffix.take k) = true)
    (h3 : ∀ f ∈ p.files, (∃ k, rmatch r.file_path (f.path.take k) = true) ∧
      (∃ k, rmatch r.file_content (f.content.take k) = true)) :
    validate_ingest_payload [r] p = Except.ok true := by
  have hh : ruleHeaderMatches r p = true := by
    unfold ruleHeaderMatches
    rw [reMatchB_of_take h1, reMatchB_of_take h2]
    rfl
  have hfind : p.files.find? (fun f => fileViolates r f) = none := by
    rw [List.find?_eq_none]
    intro f hf
    have hff := h3 f hf
    unfold fileViolates
    rw [reMatchB_of_take hff.1, reMatchB_of_take hff.2]
    simp
  simp [validate_ingest_payload, hh, hfind]

/-- Witness: all four patterns are the single-character regex `a`, every
string of the payload is "abc"; each pattern matches only the proper prefix
"a", not the entire string, yet the request is authorized. -/
theorem validate_accepts_on_prefix_matches_witness :
    validate_ingest_payload [AllowRule.mk (.chr 'a') (.chr 'a') (.chr 'a') (.chr 'a')]
        (IngestPayload.mk (S "abc") (S "abc") [File.mk (S "abc") (S "abc") []]) =
      Except.ok true ∧
    rmatch (.chr 'a') (S "abc") = false :=
  ⟨validate_accepts_on_prefix_matches _ _ ⟨1, by decide⟩ ⟨1, by decide⟩
      (fun f hf => by
        rw [List.mem_singleton] at hf
        rw [hf]
        exact ⟨⟨1, by decide⟩, ⟨1, by decide⟩⟩),
    by decide⟩

theorem filesPhase_ok (st : GithubState) (b : Str) :
    ∀ fs : List File, (∀ f ∈ fs, contentsOk st f) →
      (filesPhase st b fs).1 = Except.ok () := by
  intro fs
  induction fs with
  | nil => intro _; rfl
  | cons f fs ih =>
    intro h
    have hf : contentsOk st f := h f (List.mem_cons_self f fs)
    have hrest := ih (fun g hg => h g (List.mem_cons_of_mem f hg))
    unfold filesPhase
    cases hc : st.contents f.path with
    | found c sha => simpa using hrest
    | ghError s =>
      have hs : s = 404 := by
        simp only [contentsOk, hc] at hf
        exact hf
      subst hs
      simp [hrest]

theorem filesPhase_calls_kinds (st : GithubState) (b : Str) :
    ∀ (fs : List File) (c : RemoteCall), c ∈ (filesPhase st b fs).2 →
      isEditPull c = false ∧ isCreatePull c = false ∧ isGetPulls c = false := by
  intro fs
  induction fs with
  | nil => intro c hc; simp [filesPhase] at hc
  | cons f fs ih =>
    intro c hc
    unfold filesPhase at hc
    cases hcc : st.contents f.path with
    | found cc sha =>
      rw [hcc] at hc
      simp at hc
      rcases hc with h | h | h
      · subst h; exact ⟨rfl, rfl, rfl⟩
      · subst h; exact ⟨rfl, rfl, rfl⟩
      · exact ih c h
    | ghError s =>
      rw [hcc] at hc
      by_cases hs : s = 404
      · subst hs
        simp at hc
        rcases hc with h | h | h
        · subst h; exact ⟨rfl, rfl, rfl⟩
        · subst h; exact ⟨rfl, rfl, rfl⟩
        · exact ih c h
      · simp [hs] at hc
        subst hc
        exact ⟨rfl, rfl, rfl⟩

theorem calls0Of_kinds (st : GithubState) (p : IngestPayload) :
    ∀ c ∈ calls0Of st p, isEditPull c = false ∧ isCreatePull c = false ∧ isGetPulls c = false := by
  intro c hc
  simp [calls0Of] at hc
  rcases hc with h | h | h <;> subst h <;> exact ⟨rfl, rfl, rfl⟩

theorem prPhase_two_pulls (st : GithubState) (p : IngestPayload) {pr1 pr2 : PullRequest}
    {tl : List PullRequest} (hp : st.pulls = pr1 :: pr2 :: tl) :
    prPhase st p =
      (Except.error (PyErr.assertionError (S "Expected only one PR from " ++ pr_head_of st p ++
        S " to " ++ st.default_branch_name ++ S ", but found more than one")),
       [RemoteCall.getPulls (pr_head_of st p) st.default_branch_name]) := by
  unfold prPhase
  rw [hp]
  rfl

theorem prPhase_one_pull (st : GithubState) (p : IngestPayload) {pr : PullRequest}
    (hp : st.pulls = [pr]) :
    prPhase st p =
      (if pr.title == desired_pr_title (pr_head_of st p) &&
          compare_line_by_line (pyStrip (extract_pr_body pr.body))
            (pyStrip (desired_pr_body p.files)) then
        (Except.ok pr.html_url, [RemoteCall.getPulls (pr_head_of st p) st.default_branch_name])
      else
        (Except.ok pr.html_url,
          [RemoteCall.getPulls (pr_head_of st p) st.default_branch_name,
           RemoteCall.editPull pr.number (desired_pr_title (pr_head_of st p))
             (update_pr_body pr.body (desired_pr_body p.files))])) := by
  unfold prPhase
  rw [hp]
  rfl

theorem ingest_run_eq (st : GithubState) (rules : List AllowRule)
    (j2y y2j : Str → Except PyErr Str) (p : IngestPayload) (fs2 : List File)
    (hv : validate_ingest_payload rules p = Except.ok true)
    (ht : transformFiles j2y y2j p.files = Except.ok fs2)
    (hcr : st.create_ref_status = none ∨ st.create_ref_status = some 422)
    (hok : ∀ f ∈ fs2, contentsOk st f) :
    ingest st rules j2y y2j p =
      ((prPhase st (IngestPayload.mk p.repo p.branch_suffix fs2)).1,
        calls0Of st (IngestPayload.mk p.repo p.branch_suffix fs2) ++
          ((filesPhase st (working_branch (IngestPayload.mk p.repo p.branch_suffix fs2)) fs2).2 ++
            (prPhase st (IngestPayload.mk p.repo p.branch_suffix fs2)).2)) := by
  have hfp : (filesPhase st (working_branch (IngestPayload.mk p.repo p.branch_suffix fs2)) fs2).1 =
      Except.ok () := filesPhase_ok st _ fs2 hok
  have hpost : postBranchPhase st (IngestPayload.mk p.repo p.branch_suffix fs2) =
      ((prPhase st (IngestPayload.mk p.repo p.branch_suffix fs2)).1,
        (filesPhase st (working_branch (IngestPayload.mk p.repo p.branch_suffix fs2)) fs2).2 ++
          (prPhase st (IngestPayload.mk p.repo p.branch_suffix fs2)).2) := by
    simp [postBranchPhase, hfp]
  rcases hcr with h | h <;>
    simp [ingest, hv, ht, githubPhase, h, hpost]

/-- Claim C5: when authorization fails or any file transform fails, ingest
raises before the GitHub client is used at all — the trace of repository
calls is empty, so no remote mutation occurs. -/
theorem ingest_early_failure_no_remote_calls (st : GithubState) (rules : List AllowRule)
    (j2y y2j : Str → Except PyErr Str) (p : IngestPayload)
    (h : (∃ e, validate_ingest_payload rules p = Except.error e) ∨
         (∃ e, transformFiles j2y y2j p.files = Except.error e)) :
    ∃ e, ingest st rules j2y y2j p = (Except.error e, []) := by
  cases hv : validate_ingest_payload rules p with
  | error e => exact ⟨e, by simp [ingest, hv]⟩
  | ok b =>
    rcases h with ⟨e, he⟩ | ⟨e, he⟩
    · rw [hv] at he
      exact absurd he (by simp)
    · exact ⟨e, by simp [ingest, hv, he]⟩

/-- Witness: the empty rule list rejects every payload, and ingest makes no
remote call. -/
theorem ingest_early_failure_no_remote_calls_witness :
    ∃ e, ingest stRun [] idOk idOk payF = (Except.error e, []) :=
  ingest_early_failure_no_remote_calls stRun [] idOk idOk payF
    (Or.inl ⟨PyErr.http 400 (S "Payload does not match allowed regex"), rfl⟩)

theorem postBranchPhase_cases (st : GithubState) (p2 : IngestPayload) :
    (∃ e, postBranchPhase st p2 =
        (Except.error e, (filesPhase st (working_branch p2) p2.files).2)) ∨
    postBranchPhase st p2 =
      ((prPhase st p2).1,
        (filesPhase st (working_branch p2) p2.files).2 ++ (prPhase st p2).2) := by
  unfold postBranchPhase
  dsimp only
  cases hfp : (filesPhase st (working_branch p2) p2.files).1 with
  | error e => exact Or.inl ⟨e, rfl⟩
  | ok u => exact Or.inr rfl

theorem githubPhase_cases (st : GithubState) (p2 : IngestPayload) :
    (∃ s, githubPhase st p2 = (Except.error (PyErr.github s), calls0Of st p2)) ∨
    githubPhase st p2 =
      ((postBranchPhase st p2).1, calls0Of st p2 ++ (postBranchPhase st p2).2) := by
  unfold githubPhase
  dsimp only
  cases hcr : st.create_ref_status with
  | none => exact Or.inr rfl
  | some s =>
    by_cases hs : s = 422
    · subst hs
      exact Or.inr (by simp)
    · exact Or.inl ⟨s, by simp [hs]⟩

theorem githubPhase_duplicate (st : GithubState) (p2 : IngestPayload) {pr1 pr2 : PullRequest}
    {tl : List PullRequest} (hp : st.pulls = pr1 :: pr2 :: tl) :
    (∀ c ∈ (githubPhase st p2).2, isEditPull c = false ∧ isCreatePull c = false) ∧
    ((∃ c ∈ (githubPhase st p2).2, isGetPulls c = true) →
      ∃ m, (githubPhase st p2).1 = Except.error (PyErr.assertionError m)) := by
  have hpr := prPhase_two_pulls st p2 hp
  rcases githubPhase_cases st p2 with ⟨s, hg⟩ | hg
  · rw [hg]
    constructor
    · intro c hc
      exact ⟨(calls0Of_kinds st p2 c hc).1, (calls0Of_kinds st p2 c hc).2.1⟩
    · rintro ⟨c, hc, hgp⟩
      rw [(calls0Of_kinds st p2 c hc).2.2] at hgp
      exact absurd hgp (by simp)
  · rcases postBranchPhase_cases st p2 with ⟨e, hpb⟩ | hpb
    · rw [hg, hpb]
      dsimp only
      constructor
      · intro c hc
        rw [List.mem_append] at hc
        rcases hc with h | h
        · exact ⟨(calls0Of_kinds st p2 c h).1, (calls0Of_kinds st p2 c h).2.1⟩
        · have hk := filesPhase_calls_kinds st (working_branch p2) p2.files c h
          exact ⟨hk.1, hk.2.1⟩
      · rintro ⟨c, hc, hgp⟩
        rw [List.mem_append] at hc
        rcases hc with h | h
        · rw [(calls0Of_kinds st p2 c h).2.2] at hgp
          exact absurd hgp (by simp)
        · rw [(filesPhase_calls_kinds st (working_branch p2) p2.files c h).2.2] at hgp
          exact absurd hgp (by simp)
    · rw [hg, hpb, hpr]
      dsimp only
      constructor
      · intro c hc
        rw [List.mem_append] at hc
        rcases hc with h | hc2
        · exact ⟨(calls0Of_kinds st p2 c h).1, (calls0Of_kinds st p2 c h).2.1⟩
        · rw [List.mem_append] at hc2
          rcases hc2 with h | h
          · have hk := filesPhase_calls_kinds st (working_branch p2) p2.files c h
            exact ⟨hk.1, hk.2.1⟩
          · rw [List.mem_singleton] at h
            subst h
            exact ⟨rfl, rfl⟩
      · intro _
        exact ⟨_, rfl⟩

/-- Claim C6: when listing open pull requests for the head/base pair returns
more than one result, ingest never issues a PR edit or PR creation call,
and whenever the listing happened at all the run fails with the
AssertionError raised by assert_throws. -/
theorem ingest_duplicate_prs_fatal (st : GithubState) (rules : List AllowRule)
    (j2y y2j : Str → Except PyErr Str) (p : IngestPayload)
    (h2 : 2 ≤ st.pulls.length) :
    (∀ c ∈ (ingest st rules j2y y2j p).2, isEditPull c = false ∧ isCreatePull c = false) ∧
    ((∃ c ∈ (ingest st rules j2y y2j p).2, isGetPulls c = true) →
      ∃ m, (ingest st rules j2y y2j p).1 = Except.error (PyErr.assertionError m)) := by
  obtain ⟨pr1, pr2, tl, hp⟩ : ∃ pr1 pr2 tl, st.pulls = pr1 :: pr2 :: tl := by
    cases hps : st.pulls with
    | nil => rw [hps] at h2; simp at h2
    | cons a t =>
      cases hts : t with
      | nil => rw [hps, hts] at h2; simp at h2
      | cons b t2 => exact ⟨a, b, t2, rfl⟩
  cases hv : validate_ingest_payload rules p with
  | error e =>
    have hi : ingest st rules j2y y2j p = (Except.error e, []) := by simp [ingest, hv]
    rw [hi]
    exact ⟨fun c hc => by simp at hc, fun ⟨c, hc, _⟩ => by simp at hc⟩
  | ok b =>
    cases ht : transformFiles j2y y2j p.files with
    | error e =>
      have hi : ingest st rules j2y y2j p = (Except.error e, []) := by simp [ingest, hv, ht]
      rw [hi]
      exact ⟨fun c hc => by simp at hc, fun ⟨c, hc, _⟩ => by simp at hc⟩
    | ok fs2 =>
      have hi : ingest st rules j2y y2j p =
          githubPhase st (IngestPayload.mk p.repo p.branch_suffix fs2) := by
        simp [ingest, hv, ht]
      rw [hi]
      exact githubPhase_duplicate st _ hp

/-- Witness: with two open PRs for the pair, the replayed request makes no
PR edit or creation call and ends in the AssertionError. -/
theorem ingest_duplicate_prs_fatal_witness :
    (∀ c ∈ (ingest stDup [ruleAll] idOk idOk payF).2,
      isEditPull c = false ∧ isCreatePull c = false) ∧
    ((∃ c ∈ (ingest stDup [ruleAll] idOk idOk payF).2, isGetPulls c = true) →
      ∃ m, (ingest stDup [ruleAll] idOk idOk payF).1 =
        Except.error (PyErr.assertionError m)) :=
  ingest_duplicate_prs_fatal stDup [ruleAll] idOk idOk payF (by decide)

/-- Claim C7, as stated, is false: on a replay of the identical request the
reconciler issues no edit although the raw extracted managed section is not
line-by-line equal to the desired body (extraction keeps the padding
newline, giving an extra leading empty line); the code strips both sides
before comparing, which is more than trailing-newline normalization. -/
theorem pr_no_edit_despite_line_diff :
    ((ingest stRun [ruleAll] idOk idOk payF).2.any isEditPull) = false ∧
    compare_line_by_line (extract_pr_body prF.body) (desired_pr_body [fileF]) = false ∧
    (prF.title == desired_pr_title (pr_head_of stRun payF)) = true :=
  ⟨by decide, by decide, by decide⟩

/-- Claim C7 (amended): with exactly one open PR for the head/base pair and
a run that reaches the PR reconciler, no edit is issued iff the existing
title equals the desired title and the stripped extracted managed section
(leading and trailing whitespace removed by Python .strip()) is line-by-line
equal to the stripped desired body. -/
theorem pr_no_edit_iff_title_and_stripped_lines (st : GithubState) (rules : List AllowRule)
    (j2y y2j : Str → Except PyErr Str) (p : IngestPayload) (fs2 : List File) (pr : PullRequest)
    (hv : validate_ingest_payload rules p = Except.ok true)
    (ht : transformFiles j2y y2j p.files = Except.ok fs2)
    (hcr : st.create_ref_status = none ∨ st.create_ref_status = some 422)
    (hok : ∀ f ∈ fs2, contentsOk st f)
    (hpulls : st.pulls = [pr]) :
    ((ingest st rules j2y y2j p).2.any isEditPull = false) ↔
      (pr.title ==
          desired_pr_title (pr_head_of st (IngestPayload.mk p.repo p.branch_suffix fs2)) &&
        compare_line_by_line (pyStrip (extract_pr_body pr.body))
          (pyStrip (desired_pr_body fs2))) = true := by
  rw [ingest_run_eq st rules j2y y2j p fs2 hv ht hcr hok]
  rw [prPhase_one_pull st (IngestPayload.mk p.repo p.branch_suffix fs2) hpulls]
  dsimp only
  rw [List.any_append, List.any_append]
  have h0 : (calls0Of st (IngestPayload.mk p.repo p.branch_suffix fs2)).any isEditPull = false :=
    rfl
  have h1 : ((filesPhase st
      (working_branch (IngestPayload.mk p.repo p.branch_suffix fs2)) fs2).2).any isEditPull
        = false := by
    rw [List.any_eq_false]
    intro x hx
    rw [(filesPhase_calls_kinds st _ fs2 x hx).1]
    simp
  rw [h0, h1]
  simp only [Bool.false_or]
  cases hcond : (pr.title ==
      desired_pr_title (pr_head_of st (IngestPayload.mk p.repo p.branch_suffix fs2)) &&
    compare_line_by_line (pyStrip (extract_pr_body pr.body))
      (pyStrip (desired_pr_body fs2))) with
  | true => simp [hcond, isEditPull]
  | false => simp [hcond, isEditPull]

/-- Witness: the amended C7 equivalence evaluated on the replay state with
its one open PR. -/
theorem pr_no_edit_iff_title_and_stripped_lines_witness :
    ((ingest stRun [ruleAll] idOk idOk payF).2.any isEditPull = false) ↔
      (prF.title ==
          desired_pr_title (pr_head_of stRun (IngestPayload.mk payF.repo payF.branch_suffix [fileF])) &&
        compare_line_by_line (pyStrip (extract_pr_body prF.body))
          (pyStrip (desired_pr_body [fileF]))) = true :=
  pr_no_edit_iff_title_and_stripped_lines stRun [ruleAll] idOk idOk payF [fileF] prF
    rfl rfl (Or.inr rfl)
    (fun f hf => by
      rw [List.mem_singleton] at hf
      subst hf
      exact True.intro)
    rfl

/-- Claim C1 is violated by the code: on a replay where the file already
exists on the working branch with content byte-identical to the transformed
content, ingest still issues an update_file write for it. -/
theorem file_update_issued_despite_identical_content :
    stRun.contents fileF.path = ContentsResult.found fileF.content (S "blob1") ∧
    ((ingest stRun [ruleAll] idOk idOk payF).2.any isUpdateFile) = true :=
  ⟨rfl, by decide⟩

end RepoIngestion
